import Mathlib

/-!
Verification of the signal-classification engine in signal_classifier.py.

The code is shallowly embedded over the rationals: every numpy float value
is modelled as a rational number, and each numpy / scipy library call used
by the engine is modelled by its documented semantics.  Two deliberate
modelling decisions, noted where they matter:

* Division by zero over the rationals yields 0 (the Lean convention),
  whereas IEEE arithmetic on a constant signal produces an all-NaN array
  (0/0 = NaN) on which every comparison is false.  Both conventions make
  the peak search find nothing, so the observable verdict (False, None)
  agrees; the zero-variance theorems are stated only for constant signals,
  where the numerators really are zero.

* Every rational is finite, so np.isfinite is constantly true; IEEE
  infinities and NaNs are outside the model.
-/

namespace SNS

/-- List indexing with default 0, the model of in-bounds numpy indexing. -/
def lget (l : List ℚ) (n : ℕ) : ℚ := l.getD n 0

/-- Indexing by a possibly negative offset: out-of-range reads give 0, so
that a correlation sum ranges only over the overlapping part. -/
def zget (l : List ℚ) (i : ℤ) : ℚ := if 0 ≤ i then lget l i.toNat else 0

/-- np.mean of a list: sum divided by length. -/
def npMean (xs : List ℚ) : ℚ := xs.sum / xs.length

/-- Population variance, the square of np.std: mean of squared deviations. -/
def npVariance (xs : List ℚ) : ℚ := npMean (xs.map fun v => (v - npMean xs) ^ 2)

/-- np.linspace a b n: n evenly spaced points from a to b inclusive
(n = 1 gives [a], n = 0 gives the empty list). -/
def npLinspace (a b : ℚ) (n : ℕ) : List ℚ :=
  if n = 1 then [a]
  else (List.range n).map fun k => a + (b - a) * k / (n - 1)

/-- np.correlate a v in mode full: output length la + lv - 1, and entry m is
the sliding inner product with shift m, matching numpy's convention that
entry (lv - 1) is the zero-lag inner product. -/
def npCorrelateFull (a v : List ℚ) : List ℚ :=
  (List.range (a.length + v.length - 1)).map fun m =>
    ((List.range a.length).map fun j =>
      lget a j * zget v ((j : ℤ) + (v.length : ℤ) - 1 - (m : ℤ))).sum

/-- np.isfinite: every rational of the model is finite. -/
def npIsFinite (_ : ℚ) : Bool := true

/-- scipy.signal.find_peaks local-maximum criterion, per its documentation:
indices i..j form a flat run of equal values, strictly above the adjacent
value on each side; the first and last sample of the array can never be
part of such a run, because they lack a neighbour. -/
def plateauAt (y : List ℚ) (i j : ℕ) : Prop :=
  1 ≤ i ∧ i ≤ j ∧ j + 1 < y.length ∧
    (∀ k < j + 1, i ≤ k → lget y k = lget y i) ∧
    lget y (i - 1) < lget y i ∧ lget y (j + 1) < lget y i

instance (y : List ℚ) (i j : ℕ) : Decidable (plateauAt y i j) := by
  unfold plateauAt; infer_instance

/-- scipy.signal.find_peaks reports the midpoint (rounded down) of each flat
local-maximum run as a peak index. -/
def isPeakAt (y : List ℚ) (m : ℕ) : Prop :=
  ∃ i < y.length, ∃ j < y.length, plateauAt y i j ∧ m = (i + j) / 2

instance (y : List ℚ) (m : ℕ) : Decidable (isPeakAt y m) := by
  unfold isPeakAt; infer_instance

/-- The ascending list of all peak indices of scipy.signal.find_peaks. -/
def localMaxIndices (y : List ℚ) : List ℕ :=
  (List.range y.length).filter fun m => decide (isPeakAt y m)

/-- scipy.signal.find_peaks with the height argument: peaks whose value is
at least h (the selection is non-strict: height ≤ value keeps the peak). -/
def findPeaks (y : List ℚ) (h : ℚ) : List ℕ :=
  (localMaxIndices y).filter fun m => decide (h ≤ lget y m)

/-- The classifier object of SignalClassifier.__init__: samples, sampling
rate, name, and the derived duration and time axis computed at
construction. -/
structure SignalClassifier where
  signal : List ℚ
  fs : ℚ
  name : String
  duration : ℚ
  time : List ℚ
  deriving DecidableEq, Repr

/-- The only failure SignalClassifier.__init__ can raise: Python division
by zero in len(signal) / fs when the sampling rate is 0.  The code
performs no other validation. -/
inductive InitError where
  | zeroDivisionError
  deriving DecidableEq, Repr

/-- SignalClassifier.__init__: stores the samples, sampling rate and name,
and computes duration = len(signal)/fs and the time axis.  Python raises
ZeroDivisionError exactly when fs = 0; no other input is rejected. -/
def SignalClassifier.init (signal_data : List ℚ) (sampling_rate : ℚ)
    (signal_name : String) : Except InitError SignalClassifier :=
  if sampling_rate = 0 then .error .zeroDivisionError
  else
    let duration : ℚ := (signal_data.length : ℚ) / sampling_rate
    .ok { signal := signal_data, fs := sampling_rate, name := signal_name,
          duration := duration,
          time := npLinspace 0 duration signal_data.length }

/-- The normalized non-negative-lag autocorrelation computed inside
SignalClassifier.check_periodicity: the signal is standardized
((x - mean)/std, the std being passed here as the explicit parameter s,
since a square root is not rational in general), the full autocorrelation
is taken, its non-negative-lag half is kept, and it is divided by its
zero-lag entry. -/
def SignalClassifier.normAutocorr (c : SignalClassifier) (s : ℚ) : List ℚ :=
  let normalized_signal := c.signal.map fun v => (v - npMean c.signal) / s
  let autocorr0 := npCorrelateFull normalized_signal normalized_signal
  let autocorr1 := autocorr0.drop (autocorr0.length / 2)
  autocorr1.map fun v => v / lget autocorr1 0

/-- SignalClassifier.check_periodicity: find_peaks with height = threshold
on the normalized autocorrelation restricted to lags at least 1; if any
peak exists the signal is periodic with period (first peak index + 1)/fs
seconds, otherwise it is aperiodic with no period.  The parameter s is
the standard deviation of the samples (np.std), passed explicitly. -/
def SignalClassifier.checkPeriodicity (c : SignalClassifier) (s : ℚ)
    (threshold : ℚ := 3/10) : Bool × Option ℚ :=
  match findPeaks ((c.normAutocorr s).drop 1) threshold with
  | [] => (false, none)
  | p :: _ => (true, some (((p : ℚ) + 1) / c.fs))

/-- SignalClassifier.calculate_energy: sum of squared magnitudes. -/
def SignalClassifier.calculateEnergy (c : SignalClassifier) : ℚ :=
  (c.signal.map fun v => |v| ^ 2).sum

/-- SignalClassifier.calculate_power: mean of squared magnitudes. -/
def SignalClassifier.calculatePower (c : SignalClassifier) : ℚ :=
  npMean (c.signal.map fun v => |v| ^ 2)

/-- The normalized energy computed inside classify_energy_power:
energy divided by the stored duration. -/
def SignalClassifier.normalizedEnergy (c : SignalClassifier) : ℚ :=
  c.calculateEnergy / c.duration

/-- SignalClassifier.classify_energy_power: if power is positive and
finite, the label is Energy Signal when normalized energy is below 1e6
and Power Signal otherwise; if power is zero or non-finite the label is
Energy Signal unconditionally. -/
def SignalClassifier.classifyEnergyPower (c : SignalClassifier) : String :=
  let power := c.calculatePower
  let normalized_energy := c.normalizedEnergy
  if 0 < power ∧ npIsFinite power = true then
    if normalized_energy < 1000000 then "Energy Signal" else "Power Signal"
  else "Energy Signal"

/-- The spectrogram branch of SignalClassifier.plot_analysis: the
spectrogram is computed exactly when the signal has strictly more than
256 samples; otherwise the panel reports that the signal is too short. -/
def SignalClassifier.spectrogramComputed (c : SignalClassifier) : Bool :=
  256 < c.signal.length

/-- A lag qualifies for the detector when the peak search reports the
corresponding index (lag minus one) of the lags-from-one autocorrelation
slice as a local maximum whose value is at least the 0.3 threshold. -/
def qualifyingLag (c : SignalClassifier) (s : ℚ) (ℓ : ℕ) : Prop :=
  1 ≤ ℓ ∧ isPeakAt ((c.normAutocorr s).drop 1) (ℓ - 1) ∧
    (3 : ℚ)/10 ≤ lget ((c.normAutocorr s).drop 1) (ℓ - 1)

instance (c : SignalClassifier) (s : ℚ) (ℓ : ℕ) :
    Decidable (qualifyingLag c s ℓ) := by
  unfold qualifyingLag; infer_instance

/-- The lags the detector actually treats as qualifying peaks: members of
the find_peaks output, shifted by one because the search runs over the
slice that starts at lag 1. -/
def codeQualifyingLag (c : SignalClassifier) (s : ℚ) (ℓ : ℕ) : Prop :=
  1 ≤ ℓ ∧ (ℓ - 1) ∈ findPeaks ((c.normAutocorr s).drop 1) (3/10)

instance (c : SignalClassifier) (s : ℚ) (ℓ : ℕ) :
    Decidable (codeQualifyingLag c s ℓ) := by
  unfold codeQualifyingLag; infer_instance

/-- The peak criterion exactly as the specification words it: lag at least
1, the value a local maximum that is strictly greater than both
neighbours, with the comparison against a missing neighbour waived at
either end of the searched range, and height strictly above 0.3. -/
def specQualifyingLag (c : SignalClassifier) (s : ℚ) (ℓ : ℕ) : Prop :=
  1 ≤ ℓ ∧ ℓ - 1 < ((c.normAutocorr s).drop 1).length ∧
    (ℓ - 1 = 0 ∨
      lget ((c.normAutocorr s).drop 1) (ℓ - 2) <
        lget ((c.normAutocorr s).drop 1) (ℓ - 1)) ∧
    (ℓ - 1 = ((c.normAutocorr s).drop 1).length - 1 ∨
      lget ((c.normAutocorr s).drop 1) ℓ <
        lget ((c.normAutocorr s).drop 1) (ℓ - 1)) ∧
    (3 : ℚ)/10 < lget ((c.normAutocorr s).drop 1) (ℓ - 1)

instance (c : SignalClassifier) (s : ℚ) (ℓ : ℕ) :
    Decidable (specQualifyingLag c s ℓ) := by
  unfold specQualifyingLag; infer_instance

/-- A period-4 square-ish wave: zero mean and standard deviation exactly 1,
so the standardization step is exactly representable over the rationals. -/
def sigSquare : SignalClassifier :=
  ⟨[1, 1, -1, -1, 1, 1, -1, -1], 2, "square wave", 4, npLinspace 0 4 8⟩

/-- A single step down: its autocorrelation is maximal at lag 1, the very
boundary of the searched range, which find_peaks never reports. -/
def sigStep : SignalClassifier :=
  ⟨[1, 1, 1, 1, -1, -1, -1, -1], 1, "step", 8, npLinspace 0 8 8⟩

/-- A constant signal, the zero-variance edge case. -/
def sigConst : SignalClassifier :=
  ⟨[5, 5, 5], 2, "constant", 3/2, npLinspace 0 (3/2) 3⟩

/-- A one-sample very loud signal whose normalized energy crosses the 1e6
cutoff, so it is labelled a power signal. -/
def sigLoud : SignalClassifier :=
  ⟨[2000], 1000, "impulse", 1/1000, npLinspace 0 (1/1000) 1⟩

/-- A silent signal of exactly 256 samples, one spectrogram window. -/
def sig256 : SignalClassifier :=
  ⟨List.replicate 256 0, 8000, "silence", 4/125, npLinspace 0 (4/125) 256⟩

/-! Helper lemmas about the peak search. -/

lemma lget_drop_one (l : List ℚ) (k : ℕ) :
    lget (l.drop 1) k = lget l (k + 1) := by
  cases l <;> rfl

lemma isPeakAt_lt {y : List ℚ} {m : ℕ} (h : isPeakAt y m) : m < y.length := by
  obtain ⟨i, hi, j, hj, hpl, rfl⟩ := h
  have h1 := hpl.2.1
  have h2 := hpl.2.2.1
  omega

lemma isPeakAt_pos {y : List ℚ} {m : ℕ} (h : isPeakAt y m) : 1 ≤ m := by
  obtain ⟨i, hi, j, hj, hpl, rfl⟩ := h
  have h0 := hpl.1
  have h1 := hpl.2.1
  omega

lemma mem_findPeaks (y : List ℚ) (h : ℚ) (m : ℕ) :
    m ∈ findPeaks y h ↔ isPeakAt y m ∧ h ≤ lget y m := by
  unfold findPeaks localMaxIndices
  simp only [List.mem_filter, List.mem_range, decide_eq_true_eq]
  constructor
  · rintro ⟨⟨_, hp⟩, hh⟩; exact ⟨hp, hh⟩
  · rintro ⟨hp, hh⟩; exact ⟨⟨isPeakAt_lt hp, hp⟩, hh⟩

lemma findPeaks_pairwise (y : List ℚ) (h : ℚ) :
    (findPeaks y h).Pairwise (· < ·) :=
  ((List.pairwise_lt_range _).filter _).filter _

lemma head_le_of_pairwise {p : ℕ} {rest : List ℕ}
    (hp : (p :: rest).Pairwise (· < ·)) {a : ℕ} (ha : a ∈ p :: rest) :
    p ≤ a := by
  rcases List.mem_cons.1 ha with rfl | h
  · exact le_refl a
  · exact le_of_lt ((List.pairwise_cons.1 hp).1 a h)

lemma qualifyingLag_iff_mem (c : SignalClassifier) (s : ℚ) (ℓ : ℕ) :
    qualifyingLag c s ℓ ↔
      ∃ m ∈ findPeaks ((c.normAutocorr s).drop 1) (3/10), ℓ = m + 1 := by
  unfold qualifyingLag
  constructor
  · rintro ⟨h1, hpk, hht⟩
    exact ⟨ℓ - 1, (mem_findPeaks _ _ _).2 ⟨hpk, hht⟩, by omega⟩
  · rintro ⟨m, hm, rfl⟩
    obtain ⟨hpk, hht⟩ := (mem_findPeaks _ _ _).1 hm
    refine ⟨by omega, ?_, ?_⟩
    · simpa using hpk
    · simpa using hht

lemma checkPeriodicity_eq_nil {c : SignalClassifier} {s : ℚ}
    (h : findPeaks ((c.normAutocorr s).drop 1) (3/10) = []) :
    c.checkPeriodicity s = (false, none) := by
  unfold SignalClassifier.checkPeriodicity
  rw [h]

lemma checkPeriodicity_eq_cons {c : SignalClassifier} {s : ℚ} {p : ℕ}
    {rest : List ℕ}
    (h : findPeaks ((c.normAutocorr s).drop 1) (3/10) = p :: rest) :
    c.checkPeriodicity s = (true, some (((p : ℚ) + 1) / c.fs)) := by
  unfold SignalClassifier.checkPeriodicity
  rw [h]

/-- C1: for every non-constant signal (the hypotheses say that s is the
standard deviation of the samples and that it is positive), the detector
declares the signal periodic exactly when at least one qualifying
autocorrelation peak exists; when one does, the reported period is the
smallest qualifying lag divided by the sampling rate, and when none does
the verdict is aperiodic with no period. -/
theorem checkPeriodicity_periodic_iff_first_qualifying_lag
    (c : SignalClassifier) (s : ℚ)
    (_hv : s ^ 2 = npVariance c.signal) (_hs : 0 < s) :
    ((c.checkPeriodicity s).1 = true ↔ ∃ ℓ, qualifyingLag c s ℓ) ∧
    (∀ ℓ₀, IsLeast {ℓ | qualifyingLag c s ℓ} ℓ₀ →
      c.checkPeriodicity s = (true, some ((ℓ₀ : ℚ) / c.fs))) ∧
    ((∀ ℓ, ¬ qualifyingLag c s ℓ) → c.checkPeriodicity s = (false, none)) := by
  rcases hfp : findPeaks ((c.normAutocorr s).drop 1) (3/10) with _ | ⟨p, rest⟩
  · have heq := checkPeriodicity_eq_nil hfp
    refine ⟨?_, ?_, fun _ => heq⟩
    · rw [heq]
      simp only [Bool.false_eq_true, false_iff]
      rintro ⟨ℓ, hq⟩
      obtain ⟨m, hm, -⟩ := (qualifyingLag_iff_mem c s ℓ).1 hq
      rw [hfp] at hm
      cases hm
    · intro ℓ₀ hle
      obtain ⟨m, hm, -⟩ := (qualifyingLag_iff_mem c s ℓ₀).1 hle.1
      rw [hfp] at hm
      cases hm
  · have heq := checkPeriodicity_eq_cons hfp
    have hpq : qualifyingLag c s (p + 1) :=
      (qualifyingLag_iff_mem c s (p + 1)).2
        ⟨p, by rw [hfp]; exact List.mem_cons_self _ _, rfl⟩
    refine ⟨?_, ?_, ?_⟩
    · rw [heq]
      exact ⟨fun _ => ⟨p + 1, hpq⟩, fun _ => rfl⟩
    · intro ℓ₀ hle
      have hub : ℓ₀ ≤ p + 1 := hle.2 hpq
      obtain ⟨m, hm, hm2⟩ := (qualifyingLag_iff_mem c s ℓ₀).1 hle.1
      rw [hfp] at hm
      have hpm : p ≤ m :=
        head_le_of_pairwise (by rw [← hfp]; exact findPeaks_pairwise _ _) hm
      have hℓ : ℓ₀ = p + 1 := by omega
      subst hℓ
      rw [heq]
      norm_num
    · intro hnone
      exact absurd hpq (hnone _)

/-- C9: whenever the detector declares a signal periodic, the reported
period is at least two sample-periods, because the peak search can never
report the first index of the searched range; consequently the reported
frequency never exceeds the Nyquist frequency. -/
theorem periodic_period_at_least_two_samples (c : SignalClassifier)
    (s p : ℚ) (hf : 0 < c.fs)
    (h : c.checkPeriodicity s = (true, some p)) :
    2 / c.fs ≤ p ∧ 1 / p ≤ c.fs / 2 := by
  rcases hfp : findPeaks ((c.normAutocorr s).drop 1) (3/10) with _ | ⟨m, rest⟩
  · rw [checkPeriodicity_eq_nil hfp] at h
    cases h
  · rw [checkPeriodicity_eq_cons hfp] at h
    simp only [Prod.mk.injEq, Option.some.injEq] at h
    obtain ⟨-, hp⟩ := h
    subst hp
    have hm : isPeakAt ((c.normAutocorr s).drop 1) m :=
      ((mem_findPeaks _ _ _).1 (by rw [hfp]; exact List.mem_cons_self _ _)).1
    have h1m : 1 ≤ m := isPeakAt_pos hm
    have h2 : (2 : ℚ) ≤ (m : ℚ) + 1 := by
      have : (1 : ℚ) ≤ (m : ℚ) := by exact_mod_cast h1m
      linarith
    have hple : 2 / c.fs ≤ ((m : ℚ) + 1) / c.fs := by
      apply div_le_div_of_nonneg_right h2 hf.le
    refine ⟨hple, ?_⟩
    have hpos : (0 : ℚ) < 2 / c.fs := div_pos two_pos hf
    calc 1 / (((m : ℚ) + 1) / c.fs) ≤ 1 / (2 / c.fs) :=
          one_div_le_one_div_of_le hpos hple
      _ = c.fs / 2 := one_div_div _ _


/-! Lemmas for the zero-variance (constant signal) path. -/

lemma lget_zero_of_forall :
    ∀ (y : List ℚ), (∀ x ∈ y, x = 0) → ∀ k, lget y k = 0
  | [], _, k => by cases k <;> rfl
  | a :: t, h, 0 => h a (List.mem_cons_self _ _)
  | a :: t, h, (k + 1) =>
      lget_zero_of_forall t (fun x hx => h x (List.mem_cons_of_mem _ hx)) k

lemma correlate_mem_zero {a v : List ℚ} (ha : ∀ x ∈ a, x = 0) :
    ∀ x ∈ npCorrelateFull a v, x = 0 := by
  intro x hx
  unfold npCorrelateFull at hx
  rw [List.mem_map] at hx
  obtain ⟨m, -, rfl⟩ := hx
  apply List.sum_eq_zero
  intro t ht
  rw [List.mem_map] at ht
  obtain ⟨j, -, rfl⟩ := ht
  rw [lget_zero_of_forall a ha j, zero_mul]

lemma normAutocorr_zero_std (c : SignalClassifier) :
    ∀ x ∈ c.normAutocorr 0, x = 0 := by
  intro x hx
  have hn : ∀ x ∈ c.signal.map fun v => (v - npMean c.signal) / (0 : ℚ), x = 0 := by
    intro x hx
    rw [List.mem_map] at hx
    obtain ⟨w, -, rfl⟩ := hx
    exact div_zero _
  unfold SignalClassifier.normAutocorr at hx
  rw [List.mem_map] at hx
  obtain ⟨u, hu, rfl⟩ := hx
  rw [correlate_mem_zero hn u (List.mem_of_mem_drop hu), zero_div]

lemma findPeaks_eq_nil_of_zero {y : List ℚ} (hz : ∀ x ∈ y, x = 0) (t : ℚ) :
    findPeaks y t = [] := by
  unfold findPeaks localMaxIndices
  have hmax : (List.range y.length).filter (fun m => decide (isPeakAt y m)) = [] := by
    rw [List.filter_eq_nil_iff]
    intro m _
    simp only [decide_eq_true_eq]
    rintro ⟨i, hi, j, hj, hpl, -⟩
    have hrise := hpl.2.2.2.2.1
    rw [lget_zero_of_forall y hz, lget_zero_of_forall y hz] at hrise
    exact lt_irrefl 0 hrise
  rw [hmax]
  rfl

/-- C4: a constant signal of any positive length is classified aperiodic
with no period; the zero standard deviation never surfaces as an error
(the whole computation is a total function).  In IEEE arithmetic this path
produces an all-NaN autocorrelation on which every comparison is false; in
the rational model the division by the zero standard deviation yields
zeros; under both conventions find_peaks returns nothing. -/
theorem checkPeriodicity_constant_signal (c : SignalClassifier) (n : ℕ)
    (v : ℚ) (_hsig : c.signal = List.replicate n v) (_hn : 1 ≤ n) :
    c.checkPeriodicity 0 = (false, none) := by
  apply checkPeriodicity_eq_nil
  apply findPeaks_eq_nil_of_zero
  intro x hx
  exact normAutocorr_zero_std c x (List.mem_of_mem_drop hx)

unseal Rat.add Rat.mul Rat.inv Rat.sub Rat.ofScientific in
/-- C5 counterexample: for the step signal (standard deviation exactly 1),
lag 1 satisfies the claim's boundary-aware peak criterion with height
5/8 strictly above 0.3, yet the detector finds no qualifying peak at all
and declares the signal aperiodic: find_peaks never reports the first
position of the searched range. -/
theorem find_peaks_boundary_counterexample :
    specQualifyingLag sigStep 1 1 ∧ ¬ codeQualifyingLag sigStep 1 1 ∧
    sigStep.checkPeriodicity 1 = (false, none) ∧
    (1 : ℚ) ^ 2 = npVariance sigStep.signal := by
  decide

/-- C5 amended: a lag qualifies as a peak exactly when it is the rounded
midpoint of a flat run of equal autocorrelation values spanning lags a..b
with 2 <= a and b at most the highest searched lag minus one, the run
strictly above the adjacent value on each side, and the value at the
reported lag at least 0.3 (the height filter is non-strict); in
particular lag 1 and the highest lag can never qualify. -/
theorem qualifying_peak_characterization (c : SignalClassifier) (s : ℚ)
    (ℓ : ℕ) :
    codeQualifyingLag c s ℓ ↔
      ∃ a b : ℕ, 2 ≤ a ∧ a ≤ b ∧ b + 1 < (c.normAutocorr s).length ∧
        (∀ k, a ≤ k → k ≤ b →
          lget (c.normAutocorr s) k = lget (c.normAutocorr s) a) ∧
        lget (c.normAutocorr s) (a - 1) < lget (c.normAutocorr s) a ∧
        lget (c.normAutocorr s) (b + 1) < lget (c.normAutocorr s) a ∧
        ℓ = (a + b) / 2 ∧ (3 : ℚ)/10 ≤ lget (c.normAutocorr s) ℓ := by
  have hy : ((c.normAutocorr s).drop 1).length = (c.normAutocorr s).length - 1 := by
    simp
  unfold codeQualifyingLag
  rw [mem_findPeaks]
  constructor
  · rintro ⟨hℓ1, ⟨i, hi, j, hj, ⟨h1i, hij, hjlen, hplat, hlrise, hrfall⟩, hm⟩, hht⟩
    refine ⟨i + 1, j + 1, by omega, by omega, by omega, ?_, ?_, ?_, by omega, ?_⟩
    · intro k hk1 hk2
      have hp := hplat (k - 1) (by omega) (by omega)
      rw [lget_drop_one, lget_drop_one] at hp
      have hkk : k - 1 + 1 = k := by omega
      rwa [hkk] at hp
    · rw [lget_drop_one, lget_drop_one] at hlrise
      have hii : i - 1 + 1 = i := by omega
      rw [hii] at hlrise
      simpa using hlrise
    · rw [lget_drop_one, lget_drop_one] at hrfall
      exact hrfall
    · rw [lget_drop_one] at hht
      have hll : ℓ - 1 + 1 = ℓ := by omega
      rwa [hll] at hht
  · rintro ⟨a, b, ha2, hab, hblen, hplat, hlrise, hrfall, hℓ, hht⟩
    have hℓ1 : 1 ≤ ℓ := by omega
    refine ⟨hℓ1, ⟨a - 1, by omega, b - 1, by omega,
      ⟨by omega, by omega, by omega, ?_, ?_, ?_⟩, by omega⟩, ?_⟩
    · intro k hk hk2
      rw [lget_drop_one, lget_drop_one]
      have h2 : a - 1 + 1 = a := by omega
      rw [h2]
      exact hplat (k + 1) (by omega) (by omega)
    · rw [lget_drop_one, lget_drop_one]
      have h2 : a - 1 - 1 + 1 = a - 1 := by omega
      have h3 : a - 1 + 1 = a := by omega
      rw [h2, h3]
      exact hlrise
    · rw [lget_drop_one, lget_drop_one]
      have h2 : b - 1 + 1 + 1 = b + 1 := by omega
      have h3 : a - 1 + 1 = a := by omega
      rw [h2, h3]
      exact hrfall
    · rw [lget_drop_one]
      have hll : ℓ - 1 + 1 = ℓ := by omega
      rw [hll]
      exact hht

unseal Rat.add Rat.mul Rat.inv Rat.sub Rat.ofScientific in
/-- C3 counterexample: the constructor performs no validation.  With the
negative sampling rate -1 and one sample it succeeds, storing the negative
duration -1; with an empty sample list and sampling rate 1 it succeeds,
storing duration 0.  The claim requires both constructions to fail. -/
theorem init_accepts_invalid_inputs :
    SignalClassifier.init [(1 : ℚ)] (-1) "s" = .ok ⟨[1], -1, "s", -1, [0]⟩ ∧
    SignalClassifier.init ([] : List ℚ) 1 "t" = .ok ⟨[], 1, "t", 0, []⟩ := by
  constructor <;> rfl

/-- C3 amended: construction fails (with Python's ZeroDivisionError, not a
dedicated InvalidSignal error) exactly when the sampling rate is 0; for
every nonzero sampling rate, including negative ones, and every sample
list, including the empty one, construction succeeds and stores the
derived duration and time axis. -/
theorem init_spec (d : List ℚ) (fs : ℚ) (nm : String) :
    (fs = 0 → SignalClassifier.init d fs nm = .error .zeroDivisionError) ∧
    (fs ≠ 0 → SignalClassifier.init d fs nm =
      .ok ⟨d, fs, nm, (d.length : ℚ) / fs,
           npLinspace 0 ((d.length : ℚ) / fs) d.length⟩) := by
  constructor
  · intro h
    simp only [SignalClassifier.init, if_pos h]
  · intro h
    simp only [SignalClassifier.init, if_neg h]

/-- Witness for the amended C3 theorem at a concrete valid input. -/
theorem init_spec_witness :
    SignalClassifier.init [(1 : ℚ)] 2 "u" =
      .ok ⟨[1], 2, "u", (([(1 : ℚ)].length : ℚ)) / 2,
           npLinspace 0 (([(1 : ℚ)].length : ℚ) / 2) [(1 : ℚ)].length⟩ :=
  (init_spec [(1 : ℚ)] 2 "u").2 (by norm_num)

/-! Lemmas for the energy / power classifier. -/

lemma calculatePower_eq (c : SignalClassifier) :
    c.calculatePower = c.calculateEnergy / (c.signal.length : ℚ) := by
  unfold SignalClassifier.calculatePower SignalClassifier.calculateEnergy npMean
  rw [List.length_map]

lemma classify_power_iff (c : SignalClassifier) :
    c.classifyEnergyPower = "Power Signal" ↔
      0 < c.calculatePower ∧ 1000000 ≤ c.normalizedEnergy := by
  unfold SignalClassifier.classifyEnergyPower npIsFinite
  dsimp only
  by_cases hp : 0 < c.calculatePower
  · by_cases hn : c.normalizedEnergy < 1000000
    · rw [if_pos ⟨hp, rfl⟩, if_pos hn]
      exact iff_of_false (by simp) fun h => absurd h.2 (not_le.2 hn)
    · rw [if_pos ⟨hp, rfl⟩, if_neg hn]
      exact iff_of_true rfl ⟨hp, not_lt.1 hn⟩
  · rw [if_neg fun h => hp h.1]
    exact iff_of_false (by simp) fun h => hp h.1

/-- C2: the classifier computes normalized energy as energy over duration;
power is always finite in the rational model; with positive power the
label is Energy Signal below the 1e6 cutoff and Power Signal at or above
it, and with non-positive power the label is Energy Signal
unconditionally. -/
theorem classifyEnergyPower_threshold_rule (c : SignalClassifier) :
    c.normalizedEnergy = c.calculateEnergy / c.duration ∧
    npIsFinite c.calculatePower = true ∧
    (0 < c.calculatePower → c.normalizedEnergy < 1000000 →
      c.classifyEnergyPower = "Energy Signal") ∧
    (0 < c.calculatePower → 1000000 ≤ c.normalizedEnergy →
      c.classifyEnergyPower = "Power Signal") ∧
    (¬ 0 < c.calculatePower → c.classifyEnergyPower = "Energy Signal") := by
  refine ⟨rfl, rfl, ?_, ?_, ?_⟩
  · intro hp hn
    unfold SignalClassifier.classifyEnergyPower npIsFinite
    dsimp only
    rw [if_pos ⟨hp, rfl⟩, if_pos hn]
  · intro hp hn
    exact (classify_power_iff c).2 ⟨hp, hn⟩
  · intro hp
    unfold SignalClassifier.classifyEnergyPower npIsFinite
    dsimp only
    rw [if_neg fun h => hp h.1]

unseal Rat.add Rat.mul Rat.inv Rat.sub Rat.ofScientific in
/-- Witness for C2 at the square wave: power 1, normalized energy 2,
labelled Energy Signal. -/
theorem classifyEnergyPower_threshold_rule_witness :
    sigSquare.classifyEnergyPower = "Energy Signal" :=
  (classifyEnergyPower_threshold_rule sigSquare).2.2.1 (by decide) (by decide)

/-- C6: for every non-empty signal, power times the number of samples
equals the energy, because power is exactly the mean of the squared
magnitudes of which energy is the sum. -/
theorem power_times_length_eq_energy (c : SignalClassifier)
    (h : c.signal ≠ []) :
    c.calculatePower * (c.signal.length : ℚ) = c.calculateEnergy ∧
    c.calculatePower = c.calculateEnergy / (c.signal.length : ℚ) := by
  have hne : ((c.signal.length : ℚ)) ≠ 0 := by
    exact_mod_cast (List.length_pos.2 h).ne'
  refine ⟨?_, calculatePower_eq c⟩
  rw [calculatePower_eq c, div_mul_cancel₀ _ hne]

unseal Rat.add Rat.mul Rat.inv Rat.sub Rat.ofScientific in
/-- Witness for C6 at the constant signal: 25 times 3 equals 75. -/
theorem power_times_length_eq_energy_witness :
    sigConst.calculatePower * (sigConst.signal.length : ℚ) =
      sigConst.calculateEnergy :=
  (power_times_length_eq_energy sigConst (by decide)).1

/-- C10: when the stored duration is the derived one, normalized energy
equals power times the sampling rate, so the Power Signal label is
returned exactly when power is positive and power times the sampling rate
reaches the 1e6 cutoff: the effective power cutoff scales with the
sampling rate. -/
theorem power_signal_iff_power_fs_threshold (c : SignalClassifier)
    (hd : c.duration = (c.signal.length : ℚ) / c.fs)
    (_hn : c.signal ≠ []) (_hf : 0 < c.fs) :
    c.normalizedEnergy = c.calculatePower * c.fs ∧
    (c.classifyEnergyPower = "Power Signal" ↔
      0 < c.calculatePower ∧ 1000000 ≤ c.calculatePower * c.fs) := by
  have h1 : c.normalizedEnergy = c.calculatePower * c.fs := by
    unfold SignalClassifier.normalizedEnergy
    rw [hd, calculatePower_eq c, div_div_eq_mul_div, div_mul_eq_mul_div]
  exact ⟨h1, by rw [classify_power_iff, h1]⟩

unseal Rat.add Rat.mul Rat.inv Rat.sub Rat.ofScientific in
/-- Witness for C10 at the loud one-sample signal: power 4e6 times
sampling rate 1000 is far above the cutoff, so it is a Power Signal. -/
theorem power_signal_iff_power_fs_threshold_witness :
    sigLoud.classifyEnergyPower = "Power Signal" :=
  ((power_signal_iff_power_fs_threshold sigLoud (by decide) (by decide)
    (by decide)).2).2 (by decide)

set_option maxRecDepth 4000 in
/-- C8 counterexample: a signal of exactly 256 samples, which is not
fewer samples than one spectrogram window, still has its spectrogram
reported as unavailable. -/
theorem spectrogram_at_256_counterexample :
    sig256.spectrogramComputed = false ∧ ¬ sig256.signal.length < 256 := by
  constructor <;> decide

/-- C8 amended: the spectrogram is computed exactly when the signal has
strictly more than 256 samples, and reported unavailable exactly when it
has at most 256 samples, the boundary case of exactly one window
included. -/
theorem spectrogramComputed_iff (c : SignalClassifier) :
    (c.spectrogramComputed = true ↔ 256 < c.signal.length) ∧
    (c.spectrogramComputed = false ↔ c.signal.length ≤ 256) := by
  unfold SignalClassifier.spectrogramComputed
  constructor
  · exact decide_eq_true_iff
  · rw [decide_eq_false_iff_not]
    exact not_lt

lemma qualifyingLag_le_len (c : SignalClassifier) (s : ℚ) (ℓ : ℕ)
    (h : qualifyingLag c s ℓ) : ℓ ≤ ((c.normAutocorr s).drop 1).length := by
  obtain ⟨h1, hpk, -⟩ := h
  have := isPeakAt_lt hpk
  omega

unseal Rat.add Rat.mul Rat.inv Rat.sub Rat.ofScientific in
/-- Witness for C1 at the period-4 square wave (standard deviation exactly
1): the least qualifying lag is 4 and the reported period is 4/2 = 2 s. -/
theorem checkPeriodicity_periodic_iff_first_qualifying_lag_witness :
    sigSquare.checkPeriodicity 1 = (true, some 2) := by
  have h := checkPeriodicity_periodic_iff_first_qualifying_lag sigSquare 1
    (by decide) (by decide)
  have h4 : qualifyingLag sigSquare 1 4 := by decide
  have hlb : ∀ ℓ ∈ {ℓ | qualifyingLag sigSquare 1 ℓ}, 4 ≤ ℓ := by
    intro ℓ hq
    simp only [Set.mem_setOf_eq] at hq
    have hle := qualifyingLag_le_len sigSquare 1 ℓ hq
    have hlen : ((sigSquare.normAutocorr 1).drop 1).length = 7 := by decide
    rw [hlen] at hle
    interval_cases ℓ <;> first
      | exact absurd hq (by decide)
      | decide
  have heq := h.2.1 4 ⟨h4, hlb⟩
  rw [heq]
  norm_num [sigSquare]

unseal Rat.add Rat.mul Rat.inv Rat.sub Rat.ofScientific in
/-- Witness for C9 at the square wave: the period 2 s is at least two
sample-periods of the 2 Hz sampling rate, and the frequency is at most
the Nyquist frequency. -/
theorem periodic_period_at_least_two_samples_witness :
    2 / sigSquare.fs ≤ (2 : ℚ) ∧ 1 / (2 : ℚ) ≤ sigSquare.fs / 2 :=
  periodic_period_at_least_two_samples sigSquare 1 2 (by decide) (by decide)

/-- Witness for C4 at the constant signal of three fives. -/
theorem checkPeriodicity_constant_signal_witness :
    sigConst.checkPeriodicity 0 = (false, none) :=
  checkPeriodicity_constant_signal sigConst 3 5 rfl (by decide)

end SNS
